import Mathlib

/-!
Verification of the barrel-distortion text renderer (app.js and its CRT
variant).  The GLSL fragment shader, the text-wrapping routine, the hex
colour parser, the shader-compilation helper and the reset handler are
embedded shallowly: GLSL arithmetic over exact rationals (the `dist*dist`
term is the squared Euclidean norm, so no square root is needed), strings
as `List Char`, and the WebGL context as an oracle plus an event trace.
-/

namespace BarrelDistortion

/-- The fixed distortion centre `vec2(0.5, 0.5)` of the fragment shader. -/
def center : ℚ × ℚ := (1/2, 1/2)

/-- Squared Euclidean distance between two points, the exact-arithmetic
counterpart of `length(p - q)` squared. -/
def sqDist (p q : ℚ × ℚ) : ℚ :=
  (p.1 - q.1)^2 + (p.2 - q.2)^2

/-- The fragment shader's barrel warp (app.js lines 29-37 and the CRT
variant lines 41-48), over exact rationals:
`coord = (vTexCoord - center) * uZoom`, `dist = length(coord)`,
`factor = 1.0 + uDistortion * dist * dist`,
`distortedCoord = coord * factor / uZoom + center`.
`dist * dist` is embedded exactly as the squared norm of `coord`. -/
def distort (d z : ℚ) (p : ℚ × ℚ) : ℚ × ℚ :=
  let cx := (p.1 - center.1) * z
  let cy := (p.2 - center.2) * z
  let factor := 1 + d * (cx^2 + cy^2)
  (cx * factor / z + center.1, cy * factor / z + center.2)

lemma sqDist_nonneg (p q : ℚ × ℚ) : 0 ≤ sqDist p q := by
  unfold sqDist; positivity

/-- Radial form of the warp: the squared distance of the output from the
centre is `s * (1 + d * z^2 * s)^2` where `s` is the squared distance of
the input from the centre. -/
lemma sqDist_distort (d z : ℚ) (hz : z ≠ 0) (p : ℚ × ℚ) :
    sqDist (distort d z p) center
      = sqDist p center * (1 + d * z^2 * sqDist p center)^2 := by
  unfold sqDist distort center
  field_simp
  ring

/-- Squared displacement of the warp: the squared distance between output
and input is `(d * z^2)^2 * s^3` with `s` the squared input radius. -/
lemma sqDisp_distort (d z : ℚ) (hz : z ≠ 0) (p : ℚ × ℚ) :
    sqDist (distort d z p) p
      = (d * z^2)^2 * (sqDist p center)^3 := by
  unfold sqDist distort center
  field_simp
  ring

/-- C2: the barrel-distortion formula maps the centre point to itself:
for every distortion `d` and nonzero zoom `z`, the shader's mapping sends
`vTexCoord = (0.5, 0.5)` to `(0.5, 0.5)` exactly, over exact arithmetic. -/
theorem distort_fixes_center (d z : ℚ) (hz : z ≠ 0) :
    distort d z (1/2, 1/2) = (1/2, 1/2) := by
  unfold distort center
  field_simp

/-- Witness for `distort_fixes_center` at `d = 2`, `z = 3/2`. -/
theorem distort_fixes_center_witness :
    distort 2 (3/2) (1/2, 1/2) = (1/2, 1/2) :=
  distort_fixes_center 2 (3/2) (by norm_num)

/-- C8: zero distortion is the identity warp: with `uDistortion = 0` and
any nonzero zoom, `distortedCoord` equals `vTexCoord` exactly. -/
theorem distort_zero_id (z : ℚ) (hz : z ≠ 0) (p : ℚ × ℚ) :
    distort 0 z p = p := by
  unfold distort center
  rw [Prod.ext_iff]
  constructor <;> (field_simp; ring)

/-- Witness for `distort_zero_id` at `z = 3/2`, `p = (1/4, 2/3)`. -/
theorem distort_zero_id_witness :
    distort 0 (3/2) (1/4, 2/3) = (1/4, 2/3) :=
  distort_zero_id (3/2) (by norm_num) (1/4, 2/3)

/-- C3: the barrel warp is radially monotonic for positive distortion:
for `d > 0`, `z > 0`, a point strictly farther from the centre (in squared
distance, equivalently in distance) is mapped strictly farther from the
centre.  This is the exact-arithmetic form of "the output radial distance
`r * (1 + d * z^2 * r^2)` is strictly increasing in `r`": squaring is an
order isomorphism on nonnegative radii. -/
theorem distort_radial_mono (d z : ℚ) (p₁ p₂ : ℚ × ℚ)
    (hd : 0 < d) (hz : 0 < z)
    (h : sqDist p₁ center < sqDist p₂ center) :
    sqDist (distort d z p₁) center < sqDist (distort d z p₂) center := by
  have hz' : z ≠ 0 := ne_of_gt hz
  rw [sqDist_distort d z hz' p₁, sqDist_distort d z hz' p₂]
  have h₁ : 0 ≤ sqDist p₁ center := sqDist_nonneg _ _
  have h₂ : 0 ≤ sqDist p₂ center := sqDist_nonneg _ _
  have ha : 0 < d * z^2 := by positivity
  set s₁ := sqDist p₁ center
  set s₂ := sqDist p₂ center
  set a := d * z^2
  have e1 : 0 < s₂ - s₁ := sub_pos.mpr h
  have e2 : 0 ≤ (s₂ - s₁) * (s₂ + s₁) :=
    mul_nonneg e1.le (add_nonneg h₂ h₁)
  have e3 : 0 ≤ (s₂ - s₁) * (s₂^2 + s₁*s₂ + s₁^2) :=
    mul_nonneg e1.le
      (add_nonneg (add_nonneg (sq_nonneg _) (mul_nonneg h₁ h₂)) (sq_nonneg _))
  nlinarith [e1, mul_nonneg ha.le e2,
    mul_nonneg (mul_nonneg ha.le ha.le) e3]

/-- Witness for `distort_radial_mono` at `d = 2`, `z = 3/2`,
`p₁ = (1/2, 3/5)`, `p₂ = (1/4, 1/2)`. -/
theorem distort_radial_mono_witness :
    sqDist (distort 2 (3/2) (1/2, 3/5)) center
      < sqDist (distort 2 (3/2) (1/4, 1/2)) center :=
  distort_radial_mono 2 (3/2) (1/2, 3/5) (1/4, 1/2)
    (by norm_num) (by norm_num) (by norm_num [sqDist, center])

/-- C4 fails as stated: at distortion 1 and zoom 1 there is no constant
`k` with squared displacement `k * s^2` for every texture coordinate
(so the displacement magnitude is not `c * r^2` for any constant `c`):
the points `(3/4, 1/2)` and `(1, 1/2)` force `k = 1/16` and `k = 1/4`. -/
theorem distort_disp_not_quadratic :
    ¬ ∃ k : ℚ, ∀ p : ℚ × ℚ,
      sqDist (distort 1 1 p) p = k * (sqDist p center)^2 := by
  rintro ⟨k, hk⟩
  have h₁ := hk (3/4, 1/2)
  have h₂ := hk (1, 1/2)
  norm_num [sqDist, distort, center] at h₁ h₂
  linarith

/-- C4 amended: the displacement grows with the cube (not the square) of
the distance from the centre: for every distortion `d`, nonzero zoom `z`
and texture coordinate `p`, the squared displacement equals
`(d * z^2)^2 * s^3` with `s` the squared input radius, i.e. the
displacement magnitude is `|d| * z^2 * r^3`. -/
theorem distort_disp_cubic (d z : ℚ) (hz : z ≠ 0) (p : ℚ × ℚ) :
    sqDist (distort d z p) p = (d * z^2)^2 * (sqDist p center)^3 :=
  sqDisp_distort d z hz p

/-- Witness for `distort_disp_cubic` at `d = 2`, `z = 3/2`,
`p = (3/4, 1/2)`. -/
theorem distort_disp_cubic_witness :
    sqDist (distort 2 (3/2) (3/4, 1/2)) (3/4, 1/2)
      = (2 * (3/2)^2)^2 * (sqDist ((3/4 : ℚ), (1/2 : ℚ)) center)^3 :=
  distort_disp_cubic 2 (3/2) (by norm_num) (3/4, 1/2)

/-! ## Text wrapping (wrapText, app.js lines 120-137 / CRT variant 152-168)

Strings are embedded as `List Char`.  `splitOnSpace` is JavaScript's
`text.split(' ')` (split at every single space, `"" ↦ [""]`), and the
2D context's `measureText(s).width` is an arbitrary function
`List Char → ℚ`. -/

/-- Accumulator pass of JavaScript `split(' ')`: `acc` holds the current
piece reversed. -/
def splitAux : List Char → List Char → List (List Char)
  | [], acc => [acc.reverse]
  | c :: rest, acc =>
      if c = ' ' then acc.reverse :: splitAux rest []
      else splitAux rest (c :: acc)

/-- JavaScript `text.split(' ')` on the character list. -/
def splitOnSpace (s : List Char) : List (List Char) :=
  splitAux s []

/-- The `for` loop of `wrapText`: `cur` is `currentLine`, and each
further word is appended when
`measureText(currentLine + " " + word).width < maxWidth`, otherwise
`currentLine` is pushed and the word starts a new line; the final
`currentLine` is pushed after the loop. -/
def wrapAux (measure : List Char → ℚ) (maxWidth : ℚ) :
    List Char → List (List Char) → List (List Char)
  | cur, [] => [cur]
  | cur, w :: ws =>
      if measure (cur ++ ' ' :: w) < maxWidth then
        wrapAux measure maxWidth (cur ++ ' ' :: w) ws
      else
        cur :: wrapAux measure maxWidth w ws

/-- `wrapText(context, text, maxWidth)`: split the text at spaces, seed
`currentLine` with `words[0] || ''` and run the loop.  `splitOnSpace`
never returns `[]`, and its first piece is already `[]` when the text is
empty, so the JavaScript `|| ''` fallback is the `[[]]` arm. -/
def wrapText (measure : List Char → ℚ) (text : List Char) (maxWidth : ℚ) :
    List (List Char) :=
  match splitOnSpace text with
  | [] => [[]]
  | w :: ws => wrapAux measure maxWidth w ws

/-- JavaScript `lines.join(' ')`. -/
def joinSpace : List (List Char) → List Char
  | [] => []
  | [l] => l
  | l :: ls => l ++ ' ' :: joinSpace ls

lemma wrapAux_ne_nil (m : List Char → ℚ) (mw : ℚ)
    (cur : List Char) (ws : List (List Char)) :
    wrapAux m mw cur ws ≠ [] := by
  induction ws generalizing cur with
  | nil => simp [wrapAux]
  | cons w ws ih =>
      simp only [wrapAux]
      split
      · exact ih _
      · simp

lemma splitAux_ne_nil (s acc : List Char) : splitAux s acc ≠ [] := by
  cases s with
  | nil => simp [splitAux]
  | cons c rest => simp only [splitAux]; split <;> simp [splitAux_ne_nil]

lemma joinSpace_cons (a : List Char) (ls : List (List Char)) (h : ls ≠ []) :
    joinSpace (a :: ls) = a ++ ' ' :: joinSpace ls := by
  cases ls with
  | nil => exact absurd rfl h
  | cons b bs => rfl

lemma joinSpace_glue (a b : List Char) (ls : List (List Char)) :
    joinSpace ((a ++ ' ' :: b) :: ls) = joinSpace (a :: b :: ls) := by
  cases ls with
  | nil => rfl
  | cons c cs =>
      rw [joinSpace_cons _ (c :: cs) (by simp),
        joinSpace_cons a (b :: c :: cs) (by simp),
        joinSpace_cons b (c :: cs) (by simp)]
      simp

lemma wrapAux_join (m : List Char → ℚ) (mw : ℚ)
    (ws : List (List Char)) (cur : List Char) :
    joinSpace (wrapAux m mw cur ws) = joinSpace (cur :: ws) := by
  induction ws generalizing cur with
  | nil => rfl
  | cons w ws ih =>
      simp only [wrapAux]
      split
      · rw [ih (cur ++ ' ' :: w), joinSpace_glue]
      · rw [joinSpace_cons cur _ (wrapAux_ne_nil m mw w ws), ih w,
          joinSpace_cons cur (w :: ws) (by simp)]

lemma splitAux_join (s : List Char) :
    ∀ acc : List Char, joinSpace (splitAux s acc) = acc.reverse ++ s := by
  induction s with
  | nil => intro acc; simp [splitAux, joinSpace]
  | cons c rest ih =>
      intro acc
      simp only [splitAux]
      split
      · rename_i hc
        rw [joinSpace_cons _ _ (splitAux_ne_nil rest []), ih []]
        simp [hc]
      · rw [ih (c :: acc)]; simp

lemma joinSpace_splitOnSpace (s : List Char) :
    joinSpace (splitOnSpace s) = s := by
  simpa using splitAux_join s []

lemma splitAux_no_space (s : List Char) :
    ∀ acc : List Char, ' ' ∉ acc →
      ∀ w ∈ splitAux s acc, ' ' ∉ w := by
  induction s with
  | nil =>
      intro acc hacc w hw
      simp [splitAux] at hw
      simpa [hw] using hacc
  | cons c rest ih =>
      intro acc hacc w hw
      simp only [splitAux] at hw
      split at hw
      · rcases List.mem_cons.mp hw with h | h
        · simpa [h] using hacc
        · exact ih [] (by simp) w h
      · rename_i hc
        exact ih (c :: acc) (by simp [hacc, Ne.symm hc]) w hw

lemma wrapAux_width (m : List Char → ℚ) (mw : ℚ)
    (ws : List (List Char)) (cur : List Char)
    (hws : ∀ w ∈ ws, ' ' ∉ w)
    (hcur : ' ' ∉ cur ∨ m cur < mw) :
    ∀ line ∈ wrapAux m mw cur ws, ' ' ∈ line → m line < mw := by
  induction ws generalizing cur with
  | nil =>
      intro line hline hsp
      simp [wrapAux] at hline
      subst hline
      rcases hcur with h | h
      · exact absurd hsp h
      · exact h
  | cons w ws ih =>
      intro line hline hsp
      simp only [wrapAux] at hline
      split at hline
      · rename_i hlt
        exact ih (cur ++ ' ' :: w)
          (fun v hv => hws v (List.mem_cons_of_mem w hv))
          (Or.inr hlt) line hline hsp
      · rcases List.mem_cons.mp hline with h | h
        · subst h
          rcases hcur with h' | h'
          · exact absurd hsp h'
          · exact h'
        · exact ih w
            (fun v hv => hws v (List.mem_cons_of_mem w hv))
            (Or.inl (hws w (List.mem_cons_self w ws))) line h hsp

/-- C1: text wrapping never produces a multi-word line at or above the
configured max width: every line returned by `wrapText` that contains a
space measures strictly less than `maxWidth`.  This holds for an
arbitrary `measureText` — the monotonicity assumption in the claim is
not even needed, because the line that is kept is exactly the string
that was measured.  (Only a line consisting of a single word, which
contains no space, may measure at or above `maxWidth`; `renderText`
separately passes raw lines containing no space through unwrapped.) -/
theorem wrapText_width (m : List Char → ℚ) (text : List Char) (mw : ℚ)
    (line : List Char) (hline : line ∈ wrapText m text mw)
    (hsp : ' ' ∈ line) : m line < mw := by
  unfold wrapText at hline
  rcases h : splitOnSpace text with _ | ⟨w, ws⟩
  · exact absurd h (splitAux_ne_nil text [])
  · rw [h] at hline
    have hall : ∀ v ∈ w :: ws, ' ' ∉ v := by
      rw [← h]
      exact splitAux_no_space text [] (by simp)
    exact wrapAux_width m mw ws w
      (fun v hv => hall v (List.mem_cons_of_mem w hv))
      (Or.inl (hall w (List.mem_cons_self w ws)))
      line hline hsp

/-- Witness for `wrapText_width`: with `measureText = length`, text
`"ab cd ef"` and max width `6`, the returned line `"ab cd"` contains a
space and measures `5 < 6`. -/
theorem wrapText_width_witness :
    (['a','b',' ','c','d'] ∈
      wrapText (fun l => (l.length : ℚ))
        ['a','b',' ','c','d',' ','e','f'] 6) ∧
    (' ' ∈ (['a','b',' ','c','d'] : List Char)) ∧
    ((['a','b',' ','c','d'] : List Char).length : ℚ) < 6 :=
  ⟨by decide, by decide,
    wrapText_width (fun l => (l.length : ℚ))
      ['a','b',' ','c','d',' ','e','f'] 6
      ['a','b',' ','c','d'] (by decide) (by decide)⟩

/-- C10: `wrapText` loses nothing: its output is non-empty and joining
the returned lines with single spaces restores the input text exactly
(every word preserved, in order, no duplication) — `wrapText` is a right
inverse of join-with-space, for every `measureText` and max width. -/
theorem wrapText_join (m : List Char → ℚ) (text : List Char) (mw : ℚ) :
    wrapText m text mw ≠ [] ∧ joinSpace (wrapText m text mw) = text := by
  constructor
  · unfold wrapText
    rcases h : splitOnSpace text with _ | ⟨w, ws⟩
    · exact absurd h (splitAux_ne_nil text [])
    · exact wrapAux_ne_nil m mw w ws
  · unfold wrapText
    rcases h : splitOnSpace text with _ | ⟨w, ws⟩
    · exact absurd h (splitAux_ne_nil text [])
    · rw [wrapAux_join m mw ws w, ← h, joinSpace_splitOnSpace]

/-! ## hexToRgb (app.js lines 110-117 / CRT variant 143-150)

`hexToRgb` matches `^#?([a-f\d]{2})([a-f\d]{2})([a-f\d]{2})$` with the
`i` flag and returns each pair as `parseInt(pair, 16) / 255`, or `null`
on no match.  A leading `#` can never itself be a hex digit, so the
regex's optional-`#` backtracking is equivalent to stripping one leading
`#` and requiring exactly six hex digits. -/

/-- The regex character class `[a-f\d]` under the `i` flag, on the code
point: a decimal digit, `a`-`f`, or `A`-`F`. -/
def isHexDigit (c : Char) : Bool :=
  (48 ≤ c.toNat && c.toNat ≤ 57) || (97 ≤ c.toNat && c.toNat ≤ 102)
    || (65 ≤ c.toNat && c.toNat ≤ 70)

/-- Value of one hex digit, as `parseInt` reads it (0 on other input;
`hexToRgb` only applies it to characters passing `isHexDigit`). -/
def hexVal (c : Char) : ℕ :=
  if 48 ≤ c.toNat ∧ c.toNat ≤ 57 then c.toNat - 48
  else if 97 ≤ c.toNat ∧ c.toNat ≤ 102 then c.toNat - 87
  else if 65 ≤ c.toNat ∧ c.toNat ≤ 70 then c.toNat - 55
  else 0

/-- The record `{r, g, b}` returned by `hexToRgb`, rational components. -/
structure Rgb where
  r : ℚ
  g : ℚ
  b : ℚ
deriving DecidableEq

/-- `parseInt(pair, 16) / 255` for one two-digit pair. -/
def hexPair (a b : Char) : ℚ :=
  ((hexVal a * 16 + hexVal b : ℕ) : ℚ) / 255

/-- Strip the regex's optional leading `#`. -/
def stripHash : List Char → List Char
  | c :: rest => if c = '#' then rest else c :: rest
  | [] => []

/-- Match exactly six hex digits and build the `{r, g, b}` record. -/
def parseHex6 : List Char → Option Rgb
  | [a, b, c, d, e, f] =>
      if isHexDigit a && isHexDigit b && isHexDigit c && isHexDigit d
          && isHexDigit e && isHexDigit f then
        some ⟨hexPair a b, hexPair c d, hexPair e f⟩
      else none
  | _ => none

/-- `hexToRgb(hex)`: regex match then per-pair `parseInt(..., 16)/255`,
`null` (here `none`) when the regex does not match. -/
def hexToRgb (s : List Char) : Option Rgb :=
  parseHex6 (stripHash s)

/-- Modelled from the claim's words: an optional `#` followed by exactly
six hexadecimal digits. -/
def specValidHex (s : List Char) : Prop :=
  (stripHash s).length = 6 ∧ ∀ c ∈ stripHash s, isHexDigit c = true

instance (s : List Char) : Decidable (specValidHex s) := by
  unfold specValidHex; infer_instance

/-- `render`'s background-colour computation (app.js lines 185-186 /
CRT variant 214-215): `gl.clearColor(bgColor.r, bgColor.g, bgColor.b,
1.0)` dereferences `hexToRgb`'s result with no null check; `none` models
the thrown `TypeError`. -/
def renderClearColor (s : List Char) : Option (ℚ × ℚ × ℚ × ℚ) :=
  match hexToRgb s with
  | some c => some (c.r, c.g, c.b, 1)
  | none => none

lemma hexVal_le (c : Char) : hexVal c ≤ 15 := by
  unfold hexVal
  split_ifs <;> omega

lemma hexPair_mem (a b : Char) : 0 ≤ hexPair a b ∧ hexPair a b ≤ 1 := by
  unfold hexPair
  constructor
  · positivity
  · rw [div_le_one (by norm_num)]
    have ha := hexVal_le a
    have hb := hexVal_le b
    have : (hexVal a * 16 + hexVal b : ℕ) ≤ 255 := by omega
    exact_mod_cast this

lemma parseHex6_isSome (t : List Char) :
    (parseHex6 t).isSome ↔
      t.length = 6 ∧ ∀ c ∈ t, isHexDigit c = true := by
  rcases t with _ | ⟨a, t⟩; · simp [parseHex6]
  rcases t with _ | ⟨b, t⟩; · simp [parseHex6]
  rcases t with _ | ⟨c, t⟩; · simp [parseHex6]
  rcases t with _ | ⟨d, t⟩; · simp [parseHex6]
  rcases t with _ | ⟨e, t⟩; · simp [parseHex6]
  rcases t with _ | ⟨f, t⟩; · simp [parseHex6]
  rcases t with _ | ⟨g, t⟩
  · simp only [parseHex6]
    split
    · rename_i hcond
      simp only [Bool.and_eq_true] at hcond
      simp [hcond]
    · rename_i hcond
      simp only [Bool.and_eq_true] at hcond
      simp only [Option.isSome_none, Bool.false_eq_true, false_iff, not_and]
      intro _ hmem
      exact hcond ⟨⟨⟨⟨⟨hmem a (by simp), hmem b (by simp)⟩,
        hmem c (by simp)⟩, hmem d (by simp)⟩, hmem e (by simp)⟩,
        hmem f (by simp)⟩
  · simp only [parseHex6, Option.isSome_none, Bool.false_eq_true, false_iff,
      not_and]
    intro hlen
    simp at hlen

/-- C9: `hexToRgb` succeeds exactly on an optional `#` followed by six
hex digits, and then every component lies in `[0, 1]`; on any other
string it returns `null`.  Consequently `render`'s unguarded dereference
of the result is free of a null dereference exactly under that
precondition on the background-colour input. -/
theorem hexToRgb_spec (s : List Char) :
    ((hexToRgb s).isSome ↔ specValidHex s) ∧
    ((renderClearColor s).isSome ↔ specValidHex s) ∧
    ∀ rgb, hexToRgb s = some rgb →
      0 ≤ rgb.r ∧ rgb.r ≤ 1 ∧ 0 ≤ rgb.g ∧ rgb.g ≤ 1 ∧
        0 ≤ rgb.b ∧ rgb.b ≤ 1 := by
  have hiff : (hexToRgb s).isSome ↔ specValidHex s := by
    unfold hexToRgb specValidHex
    exact parseHex6_isSome (stripHash s)
  refine ⟨hiff, ?_, ?_⟩
  · unfold renderClearColor
    rcases h : hexToRgb s with _ | c
    · simpa [h] using hiff
    · simpa [h] using hiff
  · intro rgb hrgb
    unfold hexToRgb parseHex6 at hrgb
    rcases t : stripHash s with _ | ⟨a, t₁⟩ <;> rw [t] at hrgb
    · simp at hrgb
    rcases t₁ with _ | ⟨b, t₂⟩; · simp at hrgb
    rcases t₂ with _ | ⟨c, t₃⟩; · simp at hrgb
    rcases t₃ with _ | ⟨d, t₄⟩; · simp at hrgb
    rcases t₄ with _ | ⟨e, t₅⟩; · simp at hrgb
    rcases t₅ with _ | ⟨f, t₆⟩; · simp at hrgb
    rcases t₆ with _ | ⟨g, t₇⟩
    · simp only [] at hrgb
      split at hrgb
      · rcases Option.some.inj hrgb with rfl
        exact ⟨(hexPair_mem a b).1, (hexPair_mem a b).2,
          (hexPair_mem c d).1, (hexPair_mem c d).2,
          (hexPair_mem e f).1, (hexPair_mem e f).2⟩
      · simp at hrgb
    · simp at hrgb

/-- Witness for `hexToRgb_spec` at `"#FF00a0"`: a string made of `#`
and six hex digits, on which `hexToRgb` succeeds. -/
theorem hexToRgb_spec_witness :
    (hexToRgb ['#','F','F','0','0','a','0']).isSome :=
  (hexToRgb_spec ['#','F','F','0','0','a','0']).1.mpr (by decide)

/-! ## Reset handlers (app.js lines 249-261 / CRT variant 281-298)

The control widgets are modelled as a record of their `.value`s (numeric
sliders as exact rationals, text and colours as strings); each handler
is the sequence of assignments the click listener performs. -/

/-- An apostrophe (code point 39), built explicitly. -/
def apostrophe : Char := Char.ofNat 39

/-- The default text `BUT AT\nLEAST\nYOU'LL`. -/
def defaultText : String :=
  "BUT AT\nLEAST\nYOU" ++ String.mk [apostrophe] ++ "LL"

/-- The control widgets of app.js, plus the page body's background. -/
structure Controls where
  textInput : String
  fontSize : ℚ
  lineSpacing : ℚ
  distortion : ℚ
  zoom : ℚ
  fontColor : String
  bgColor : String
  bodyBackground : String
deriving DecidableEq

/-- The control widgets of the CRT variant. -/
structure ControlsCRT where
  textInput : String
  fontSize : ℚ
  lineSpacing : ℚ
  distortion : ℚ
  zoom : ℚ
  fontColor : String
  bgColor : String
  bodyBackground : String
  noiseAmount : ℚ
  scanlineIntensity : ℚ
deriving DecidableEq

/-- The app.js reset click handler: the assignments of lines 249-261 in
order (the body background is set from the just-assigned `bgColor`). -/
def resetControls (s : Controls) : Controls :=
  let s := { s with textInput := defaultText }
  let s := { s with fontSize := 80 }
  let s := { s with lineSpacing := 1.2 }
  let s := { s with distortion := 2 }
  let s := { s with zoom := 1.5 }
  let s := { s with fontColor := "#FFFFFF" }
  let s := { s with bgColor := "#000000" }
  { s with bodyBackground := s.bgColor }

/-- The CRT variant's reset click handler (lines 281-298): same controls
plus the noise amount and scanline intensity. -/
def resetControlsCRT (s : ControlsCRT) : ControlsCRT :=
  let s := { s with distortion := 2 }
  let s := { s with zoom := 1.5 }
  let s := { s with textInput := defaultText }
  let s := { s with fontSize := 80 }
  let s := { s with lineSpacing := 1.2 }
  let s := { s with fontColor := "#FFFFFF" }
  let s := { s with bgColor := "#000000" }
  let s := { s with noiseAmount := 0.05 }
  let s := { s with scanlineIntensity := 0.15 }
  { s with bodyBackground := s.bgColor }

/-- C5: resetting restores the documented defaults from every prior
state: text `BUT AT\nLEAST\nYOU'LL`, font size 80, line spacing 1.2,
distortion 2, zoom 1.5, font colour `#FFFFFF`, background `#000000`,
and in the CRT variant additionally noise amount 0.05 and scanline
intensity 0.15. -/
theorem reset_restores_defaults (s : Controls) (t : ControlsCRT) :
    resetControls s =
      ⟨defaultText, 80, 1.2, 2, 1.5, "#FFFFFF", "#000000", "#000000"⟩ ∧
    resetControlsCRT t =
      ⟨defaultText, 80, 1.2, 2, 1.5, "#FFFFFF", "#000000", "#000000",
        0.05, 0.15⟩ := by
  cases s
  cases t
  exact ⟨rfl, rfl⟩

/-! ## compileShader (app.js lines 41-51 / CRT variant 74-84)

The WebGL context is modelled by an oracle `status` for
`gl.getShaderParameter(shader, gl.COMPILE_STATUS)` and `infoLog` for
`gl.getShaderInfoLog(shader)`, together with a trace of the calls the
function performs; the fresh shader handle is 0 and `none` is the
function's `return null`. -/

/-- One observable WebGL/console action of `compileShader`. -/
inductive GLEvent where
  | createShader (shaderType : Nat)
  | shaderSource (shader : Nat) (src : String)
  | compileCall (shader : Nat)
  | logCompileError (msg : String)
  | deleteShader (shader : Nat)
deriving DecidableEq

/-- `compileShader(source, type)`: create, attach source, compile, then
either return the shader, or log the info log, delete the shader and
return `null` when the compile status check fails. -/
def compileShader (status : String → Nat → Bool)
    (infoLog : String → String) (src : String) (shaderType : Nat) :
    Option Nat × List GLEvent :=
  let shader := 0
  let setup := [GLEvent.createShader shaderType,
    GLEvent.shaderSource shader src, GLEvent.compileCall shader]
  if status src shaderType then
    (some shader, setup)
  else
    (none, setup ++ [GLEvent.logCompileError (infoLog src),
      GLEvent.deleteShader shader])

/-- C6: shader compilation either succeeds or logs an error with no
recovery path: when the compile status check passes, `compileShader`
returns the compiled shader and its trace holds no log or delete; when
it fails, it logs the compile error, deletes the shader and returns
`null`. In both cases the trace contains a single compile call — no
retry or other recovery occurs. -/
theorem compileShader_spec (status : String → Nat → Bool)
    (infoLog : String → String) (src : String) (shaderType : Nat) :
    (status src shaderType = true →
      (compileShader status infoLog src shaderType).1 = some 0 ∧
      (compileShader status infoLog src shaderType).2 =
        [GLEvent.createShader shaderType, GLEvent.shaderSource 0 src,
          GLEvent.compileCall 0]) ∧
    (status src shaderType = false →
      (compileShader status infoLog src shaderType).1 = none ∧
      (compileShader status infoLog src shaderType).2 =
        [GLEvent.createShader shaderType, GLEvent.shaderSource 0 src,
          GLEvent.compileCall 0,
          GLEvent.logCompileError (infoLog src),
          GLEvent.deleteShader 0]) := by
  unfold compileShader
  cases h : status src shaderType <;> simp [h]

/-- Witness for `compileShader_spec`: a compile whose status check
fails (type 35632 is `gl.FRAGMENT_SHADER`) returns `null` after logging
and deleting. -/
theorem compileShader_spec_witness :
    (compileShader (fun _ _ => false) (fun _ => "err") "src" 35632).1
      = none ∧
    (compileShader (fun _ _ => false) (fun _ => "err") "src" 35632).2
      = [GLEvent.createShader 35632, GLEvent.shaderSource 0 "src",
          GLEvent.compileCall 0, GLEvent.logCompileError "err",
          GLEvent.deleteShader 0] :=
  (compileShader_spec (fun _ _ => false) (fun _ => "err")
    "src" 35632).2 rfl

/-! ## Scanline step (CRT variant, fragment shader lines 54-66)

Inside the texture bounds the shader computes
`scanline = sin(distortedCoord.y * uScanlineFrequency) * uScanlineIntensity`
and subtracts it from every colour channel (`color.rgb -= scanline`).
The frequency uniform is set every frame to `canvas.height * 1.5` with
`canvas.height = 512`.  Modelled over the reals with the mathematical
sine, as the claim asks. -/

/-- `uScanlineFrequency = canvas.height * 1.5 = 512 * 1.5`. -/
noncomputable def scanlineFrequency : ℝ := 512 * 1.5

/-- A colour's rgb channels, real-valued. -/
structure Color where
  r : ℝ
  g : ℝ
  b : ℝ

/-- The scanline step `color.rgb -= sin(y * uScanlineFrequency) *
uScanlineIntensity`, applied to the sampled colour at distorted
y-coordinate `y`. -/
noncomputable def applyScanline (c : Color) (y intensity : ℝ) : Color :=
  let s := Real.sin (y * scanlineFrequency) * intensity
  ⟨c.r - s, c.g - s, c.b - s⟩

lemma sin_four_neg : Real.sin 4 < 0 := by
  have h1 : Real.sin (4 - 2 * Real.pi) < 0 :=
    Real.sin_neg_of_neg_of_neg_pi_lt
      (by nlinarith [Real.pi_gt_three])
      (by nlinarith [Real.pi_lt_four])
  rwa [Real.sin_sub_two_pi] at h1

/-- C7 fails as stated: at the in-bounds distorted coordinate
`(1/2, 1/192)` and scanline intensity `1 ≥ 0`, the scanline term is
`sin(4) < 0`, so the step strictly brightens every channel of the black
sampled colour instead of darkening it. -/
theorem scanline_can_brighten :
    (0 : ℝ) ≤ 1/2 ∧ (1/2 : ℝ) ≤ 1 ∧
    (0 : ℝ) ≤ 1/192 ∧ (1/192 : ℝ) ≤ 1 ∧
    (0 : ℝ) ≤ 1 ∧
    (Color.mk 0 0 0).r < (applyScanline ⟨0, 0, 0⟩ (1/192) 1).r := by
  refine ⟨by norm_num, by norm_num, by norm_num, by norm_num,
    by norm_num, ?_⟩
  have h4 : (1/192 : ℝ) * scanlineFrequency = 4 := by
    norm_num [scanlineFrequency]
  simp only [applyScanline, h4]
  have := sin_four_neg
  norm_num
  linarith

/-- C7 amended: the scanline step changes each channel by at most the
intensity; on rows where `sin(y * uScanlineFrequency)` is nonnegative
it darkens (each channel at most the sampled colour), and on rows where
the sine is negative it strictly brightens every channel whenever the
intensity is positive. -/
theorem applyScanline_bounded (c : Color) (y intensity : ℝ)
    (h : 0 ≤ intensity) :
    |(applyScanline c y intensity).r - c.r| ≤ intensity ∧
    |(applyScanline c y intensity).g - c.g| ≤ intensity ∧
    |(applyScanline c y intensity).b - c.b| ≤ intensity ∧
    (0 ≤ Real.sin (y * scanlineFrequency) →
      (applyScanline c y intensity).r ≤ c.r ∧
      (applyScanline c y intensity).g ≤ c.g ∧
      (applyScanline c y intensity).b ≤ c.b) ∧
    (Real.sin (y * scanlineFrequency) < 0 → 0 < intensity →
      c.r < (applyScanline c y intensity).r ∧
      c.g < (applyScanline c y intensity).g ∧
      c.b < (applyScanline c y intensity).b) := by
  have habs : |Real.sin (y * scanlineFrequency) * intensity| ≤ intensity := by
    rw [abs_mul, abs_of_nonneg h]
    calc |Real.sin (y * scanlineFrequency)| * intensity
        ≤ 1 * intensity := by
          apply mul_le_mul_of_nonneg_right _ h
          exact abs_le.mpr ⟨Real.neg_one_le_sin _, Real.sin_le_one _⟩
      _ = intensity := one_mul intensity
  have hdiff : ∀ x : ℝ,
      |x - Real.sin (y * scanlineFrequency) * intensity - x| ≤ intensity := by
    intro x
    simpa [abs_sub_comm] using habs
  refine ⟨hdiff c.r, hdiff c.g, hdiff c.b, ?_, ?_⟩
  · intro hs
    have hterm : 0 ≤ Real.sin (y * scanlineFrequency) * intensity :=
      mul_nonneg hs h
    exact ⟨by simp [applyScanline]; linarith,
      by simp [applyScanline]; linarith,
      by simp [applyScanline]; linarith⟩
  · intro hs hpos
    have hterm : Real.sin (y * scanlineFrequency) * intensity < 0 :=
      mul_neg_of_neg_of_pos hs hpos
    exact ⟨by simp [applyScanline]; linarith,
      by simp [applyScanline]; linarith,
      by simp [applyScanline]; linarith⟩

/-- Witness for `applyScanline_bounded` at the black colour, `y = 0`
and intensity `1`. -/
theorem applyScanline_bounded_witness :
    |(applyScanline ⟨0, 0, 0⟩ 0 1).r - (Color.mk 0 0 0).r| ≤ 1 :=
  (applyScanline_bounded ⟨0, 0, 0⟩ 0 1 (by norm_num)).1

end BarrelDistortion
